import Mathlib

/-!
# Verification of the repository-pattern data-access layer

Shallow embedding of the TypeScript sources:

* `src/types/models.ts`        — public domain model (`PostModel` and projections)
* `src/interfaces/store.interface.ts` — the `IStoreRepository` contract
* `src/repositories/in-memory.repo.ts` — `InMemoryRepository`
* `src/repositories/file.repo.ts`      — `FileRepository`

Modelling conventions:

* JavaScript `Date` values and ISO-8601 date strings are both modelled by a
  `Nat` timestamp (ISO-8601 strings are order-isomorphic to the instants they
  denote; no claim inspects the textual representation of a date).  Each call
  to `new Date()` inside one repository operation is modelled by a single
  `now : Nat` parameter of that operation.
* A `Promise` that resolves is modelled by returning the value; a promise whose
  executor can finish without ever calling `resolve`/`reject` (the in-memory
  `updatePost`/`deletePost` not-found paths) is modelled by `Option`, `none`
  meaning "the promise is left pending forever".  A thrown exception
  (`FileRepository`) is modelled by `Except String`.
* The backing file `db.json` is modelled by the parsed JSON array it contains
  (a `List FilePost`); `JSON.stringify` / `JSON.parse` on such an array is a
  round trip, so `Deno.writeTextFile` is modelled by replacing that list and
  `Deno.readTextFile` by reading it.
* JS `String(n)` on a number is decimal printing (`Nat.repr`); JS `String(s)`
  on a string is the identity; JS `Number(s)` on a canonical decimal string is
  decimal parsing (ids in this program are only ever produced by
  `String(length + 1)` or the seed literals `"1"`/`"2"`).
-/

namespace RepoSpec

/-- JS `String(n)` applied to a number: decimal representation. -/
def jsStringOfNat (n : Nat) : String := Nat.repr n

/-- JS `String(s)` applied to a string: the identity coercion. -/
def jsStringOfString (s : String) : String := s

/-- The numeric value of a digit character (`'0'` has code 48). -/
def digitVal (c : Char) : Nat := c.toNat - 48

/-- The accumulator step of decimal parsing. -/
def accDigit (n : Nat) (c : Char) : Nat := n * 10 + digitVal c

/-- JS `Number(s)` applied to a canonical decimal string, as produced by this
program's id assignment: decimal parsing.  (On a non-numeric string JS yields
`NaN`; that case is unreachable for the ids this program stores, and is
modelled by `0`.) -/
def jsNumberOfString (s : String) : Nat :=
  if s.data.all (·.isDigit) ∧ s.data ≠ [] then s.data.foldl accDigit 0 else 0

/-! ## Domain model — `src/types/models.ts` -/

/-- `PostModel`: the public post entity. -/
structure PostModel where
  id : Nat
  title : String
  description : String
  body : String
  createdBy : String
  created : Nat
  updated : Nat
  deriving Repr, DecidableEq

/-- `CreatePostModel = Omit<PostModel, "created" | "id" | "updated">`. -/
structure CreatePostModel where
  title : String
  description : String
  body : String
  createdBy : String
  deriving Repr, DecidableEq

/-- `UpdatePostModel = Omit<PostModel, "created" | "updated" | "createdBy">`. -/
structure UpdatePostModel where
  id : Nat
  title : String
  description : String
  body : String
  deriving Repr, DecidableEq

/-! ## In-memory backend — `src/repositories/in-memory.repo.ts` -/

/-- `MemoryPost`: the in-memory backend's internal record shape
(string-typed `id`, string-typed timestamps — the latter modelled by `Nat`,
see the module docstring). -/
structure MemoryPost where
  id : String
  post_title : String
  post_body : String
  post_description : String
  post_created : Nat
  post_updated : Nat
  username : String
  deriving Repr, DecidableEq

instance : Inhabited MemoryPost :=
  ⟨⟨"", "", "", "", 0, 0, ""⟩⟩

namespace InMemoryRepository

/-- The timestamp denoted by the seed date string `"2021-01-01"`. -/
def seedDate : Nat := 20210101

/-- The initial value of the private field `posts`: two fixed sample posts. -/
def initialPosts : List MemoryPost :=
  [ { id := "1"
      post_title := "First Post"
      post_body := "This is the first post"
      post_description := "This is the first post"
      post_created := seedDate
      post_updated := seedDate
      username := "johndoe" },
    { id := "2"
      post_title := "Second Post"
      post_body := "This is the second post"
      post_description := "This is the second post"
      post_created := seedDate
      post_updated := seedDate
      username := "janedoe" } ]

/-- `inMemoryPostToPostModel`: adapter from the internal record to the public
model (`Number(post.id)`, `new Date(post.post_created)`, …). -/
def inMemoryPostToPostModel (post : MemoryPost) : PostModel :=
  { id := jsNumberOfString post.id
    title := post.post_title
    description := post.post_description
    body := post.post_body
    created := post.post_created
    updated := post.post_updated
    createdBy := post.username }

/-- `getAllPosts`: maps every stored record through the adapter.  The promise
executor only calls `resolve`; the stored collection is not touched. -/
def getAllPosts (posts : List MemoryPost) : List PostModel :=
  posts.map inMemoryPostToPostModel

/-- `getPostById`: `this.posts.find((post) => post.id === String(id))`,
translated when found, `undefined` when absent. -/
def getPostById (posts : List MemoryPost) (id : Nat) : Option PostModel :=
  (posts.find? (fun post => post.id == jsStringOfNat id)).map inMemoryPostToPostModel

/-- `createPost`: builds the new record with `id: String(this.posts.length + 1)`
and both timestamps at the current time, pushes it, resolves its translation. -/
def createPost (posts : List MemoryPost) (post : CreatePostModel) (now : Nat) :
    PostModel × List MemoryPost :=
  let newPost : MemoryPost :=
    { id := jsStringOfNat (posts.length + 1)
      post_title := post.title
      post_body := post.body
      post_description := post.description
      post_created := now
      post_updated := now
      username := post.createdBy }
  (inMemoryPostToPostModel newPost, posts ++ [newPost])

/-- `updatePost`:
`const index = this.posts.findIndex((post) => post.id === String(post.id))` —
note that the arrow-function parameter `post` shadows the method argument
`post`, exactly as in the source, so the predicate compares each record's id
with itself.  When `index !== -1` the record at `index` is overwritten with the
argument's `title`/`body`/`description` and a fresh `updated` stamp and the
translation is resolved; otherwise the executor returns without resolving and
the promise stays pending forever (`none`). -/
def updatePost (posts : List MemoryPost) (post : UpdatePostModel) (now : Nat) :
    Option (PostModel × List MemoryPost) :=
  match posts.findIdx? (fun post => post.id == jsStringOfString post.id) with
  | some index =>
      let updatedRec : MemoryPost :=
        { posts.getD index default with
          post_title := post.title
          post_body := post.body
          post_description := post.description
          post_updated := now }
      some (inMemoryPostToPostModel updatedRec, posts.set index updatedRec)
  | none => none

/-- `deletePost`: `findIndex((post) => post.id === String(id))`; when found the
record is spliced out and the argument id resolved, otherwise the promise stays
pending forever (`none`). -/
def deletePost (posts : List MemoryPost) (id : Nat) :
    Option (Nat × List MemoryPost) :=
  match posts.findIdx? (fun post => post.id == jsStringOfNat id) with
  | some index => some (id, posts.eraseIdx index)
  | none => none

end InMemoryRepository

/-! ## File backend — `src/repositories/file.repo.ts` -/

/-- `FilePost`: the file backend's internal record shape (numeric `id`, `Date`
timestamps modelled by `Nat`). -/
structure FilePost where
  id : Nat
  title : String
  desc : String
  body : String
  author : String
  added : Nat
  updated : Nat
  deriving Repr, DecidableEq

instance : Inhabited FilePost :=
  ⟨⟨0, "", "", "", "", 0, 0⟩⟩

/-- The state of one `FileRepository` instance together with its backing store:
`FilePosts` is the lazily populated in-process cache (`none` before the first
load), `dbFile` is the parsed content of `db.json`. -/
structure FileRepoState where
  FilePosts : Option (List FilePost)
  dbFile : List FilePost
  deriving Repr, DecidableEq

namespace FileRepository

/-- `loadPosts`: populates the cache from `db.json` on first access only;
returns the cached list together with the possibly updated state. -/
def loadPosts (s : FileRepoState) : List FilePost × FileRepoState :=
  match s.FilePosts with
  | some posts => (posts, s)
  | none => (s.dbFile, { s with FilePosts := some s.dbFile })

/-- `filePostToPostModel`: adapter from the internal file record to the public
model. -/
def filePostToPostModel (filePost : FilePost) : PostModel :=
  { id := filePost.id
    title := filePost.title
    description := filePost.desc
    body := filePost.body
    createdBy := filePost.author
    created := filePost.added
    updated := filePost.updated }

/-- `getAllPosts`: load, then map every cached record through the adapter. -/
def getAllPosts (s : FileRepoState) : List PostModel × FileRepoState :=
  let (posts, s1) := loadPosts s
  (posts.map filePostToPostModel, s1)

/-- `getPostById`: load, then `find((filePost) => filePost.id === id)`,
translated when found, `undefined` when absent. -/
def getPostById (s : FileRepoState) (id : Nat) :
    Option PostModel × FileRepoState :=
  let (posts, s1) := loadPosts s
  ((posts.find? (fun filePost => filePost.id == id)).map filePostToPostModel, s1)

/-- `createPost`: load; build the record with `id: this.FilePosts.length + 1`
and both timestamps at the current time; push; rewrite `db.json` with the full
serialized collection; return the translation. -/
def createPost (s : FileRepoState) (post : CreatePostModel) (now : Nat) :
    PostModel × FileRepoState :=
  let (posts, _) := loadPosts s
  let newPost : FilePost :=
    { id := posts.length + 1
      title := post.title
      desc := post.description
      body := post.body
      author := post.createdBy
      added := now
      updated := now }
  let newPosts := posts ++ [newPost]
  (filePostToPostModel newPost, { FilePosts := some newPosts, dbFile := newPosts })

/-- `updatePost`: load; `findIndex((filePost) => filePost.id === post.id)`;
when found, overwrite `title`/`desc`/`body` and refresh `updated`, rewrite
`db.json`, return the translation; otherwise
`throw new Error("Post not found")`. -/
def updatePost (s : FileRepoState) (post : UpdatePostModel) (now : Nat) :
    Except String PostModel × FileRepoState :=
  let (posts, s1) := loadPosts s
  match posts.findIdx? (fun filePost => filePost.id == post.id) with
  | some index =>
      let updatedPost : FilePost :=
        { posts.getD index default with
          title := post.title
          desc := post.description
          body := post.body
          updated := now }
      let newPosts := posts.set index updatedPost
      (Except.ok (filePostToPostModel updatedPost),
        { FilePosts := some newPosts, dbFile := newPosts })
  | none => (Except.error "Post not found", s1)

/-- `deletePost`: load; `findIndex((filePost) => filePost.id === id)`; when
found, splice the record out, rewrite `db.json`, return the spliced record's
`id`; otherwise `throw new Error("Post not found")`. -/
def deletePost (s : FileRepoState) (id : Nat) :
    Except String Nat × FileRepoState :=
  let (posts, s1) := loadPosts s
  match posts.findIdx? (fun filePost => filePost.id == id) with
  | some index =>
      let deletedPost := posts.getD index default
      let newPosts := posts.eraseIdx index
      (Except.ok deletedPost.id, { FilePosts := some newPosts, dbFile := newPosts })
  | none => (Except.error "Post not found", s1)

end FileRepository

/-! ## Reachable states

The repository contract is exercised by a single logical thread; operations
run at nondecreasing wall-clock times.  `ReachAt posts t` (in-memory backend)
and `FileReachAt f s t` (file backend, with initial `db.json` content `f`)
describe every state reachable from the backend's initial state by the five
contract operations, where `t` bounds the times used so far.  The in-memory
read operations do not touch the stored collection, so only the mutators
appear; the file backend's reads populate the lazy cache, so they do appear. -/

namespace InMemoryRepository

/-- States of the in-memory backend reachable from the seeded initial state;
the index `t` is an upper bound on the operation times used so far. -/
inductive ReachAt : List MemoryPost → Nat → Prop
  | seed {t : Nat} : seedDate ≤ t → ReachAt initialPosts t
  | tick {posts : List MemoryPost} {t t' : Nat} :
      ReachAt posts t → t ≤ t' → ReachAt posts t'
  | create {posts : List MemoryPost} {t : Nat} (post : CreatePostModel) :
      ReachAt posts t → ReachAt (createPost posts post t).2 t
  | update {posts : List MemoryPost} {t : Nat} (post : UpdatePostModel)
      {r : PostModel × List MemoryPost} :
      ReachAt posts t → updatePost posts post t = some r → ReachAt r.2 t
  | delete {posts : List MemoryPost} {t : Nat} (id : Nat)
      {r : Nat × List MemoryPost} :
      ReachAt posts t → deletePost posts id = some r → ReachAt r.2 t

end InMemoryRepository

namespace FileRepository

/-- The timestamp/ordering invariant of one file-backend state: every record,
in the backing file and in the cache alike, has `added ≤ updated ≤ t`. -/
def FInv (s : FileRepoState) (t : Nat) : Prop :=
  (∀ p ∈ s.dbFile, p.added ≤ p.updated ∧ p.updated ≤ t) ∧
  (∀ ps, s.FilePosts = some ps → ∀ p ∈ ps, p.added ≤ p.updated ∧ p.updated ≤ t)

/-- States of one file-backend instance reachable from the fresh instance over
a backing file holding `f`; the index `t` bounds the operation times used. -/
inductive FileReachAt (f : List FilePost) : FileRepoState → Nat → Prop
  | seed {t : Nat} : (∀ p ∈ f, p.added ≤ p.updated ∧ p.updated ≤ t) →
      FileReachAt f ⟨none, f⟩ t
  | tick {s : FileRepoState} {t t' : Nat} :
      FileReachAt f s t → t ≤ t' → FileReachAt f s t'
  | getAll {s : FileRepoState} {t : Nat} :
      FileReachAt f s t → FileReachAt f (getAllPosts s).2 t
  | getById {s : FileRepoState} {t : Nat} (id : Nat) :
      FileReachAt f s t → FileReachAt f (getPostById s id).2 t
  | create {s : FileRepoState} {t : Nat} (post : CreatePostModel) :
      FileReachAt f s t → FileReachAt f (createPost s post t).2 t
  | update {s : FileRepoState} {t : Nat} (post : UpdatePostModel) :
      FileReachAt f s t → FileReachAt f (updatePost s post t).2 t
  | delete {s : FileRepoState} {t : Nat} (id : Nat) :
      FileReachAt f s t → FileReachAt f (deletePost s id).2 t

end FileRepository

/-! ## Concrete states exercising the documented id-reuse defect

Starting from the in-memory seed: create a third post (id `"3"`), delete post
`1`, create again — the new post is assigned id `String(2 + 1) = "3"`, which is
already in use.  These states are reachable and witness that the
`length + 1` id policy is not collision-safe across deletes. -/

namespace InMemoryRepository

/-- The second seed record (`id = "2"`). -/
def rec2 : MemoryPost :=
  { id := "2"
    post_title := "Second Post"
    post_body := "This is the second post"
    post_description := "This is the second post"
    post_created := seedDate
    post_updated := seedDate
    username := "janedoe" }

/-- A sample create payload. -/
def pA : CreatePostModel := ⟨"T", "D", "B", "alice"⟩

/-- A second, distinct create payload. -/
def pB : CreatePostModel := ⟨"T2", "D2", "B2", "bob"⟩

/-- The record created by `createPost pA` on the seed (assigned id `"3"`). -/
def rec3 : MemoryPost :=
  { id := "3"
    post_title := "T"
    post_body := "B"
    post_description := "D"
    post_created := seedDate
    post_updated := seedDate
    username := "alice" }

/-- The record created by the second `createPost`, on a two-element store —
assigned id `String(2 + 1) = "3"` again. -/
def rec3b : MemoryPost :=
  { id := "3"
    post_title := "T2"
    post_body := "B2"
    post_description := "D2"
    post_created := seedDate
    post_updated := seedDate
    username := "bob" }

/-- The store after seeding, `createPost pA` and `deletePost 1`. -/
def s2Posts : List MemoryPost := [rec2, rec3]

/-- The store after one more `createPost pB`: two records share id `"3"`. -/
def dupPosts : List MemoryPost := [rec2, rec3, rec3b]

end InMemoryRepository

/-! ## Decimal round trip

The in-memory backend stores ids as the JS strings `String(n)` and converts
back with `Number(id)`; these lemmas establish that the two are mutually
inverse on the canonical decimal representations the program produces. -/

lemma digitChar_isDigit {n : Nat} (h : n < 10) :
    (Nat.digitChar n).isDigit = true := by
  interval_cases n <;> decide

lemma digitVal_digitChar {n : Nat} (h : n < 10) :
    digitVal (Nat.digitChar n) = n := by
  interval_cases n <;> decide

lemma toDigitsCore_append (b fuel n : Nat) (ds : List Char) :
    Nat.toDigitsCore b fuel n ds = Nat.toDigitsCore b fuel n [] ++ ds := by
  induction fuel generalizing n ds with
  | zero => simp [Nat.toDigitsCore]
  | succ fuel ih =>
    simp only [Nat.toDigitsCore]
    by_cases h : n / b = 0
    · simp [h]
    · rw [if_neg h, if_neg h, ih (n / b) (Nat.digitChar (n % b) :: ds),
        ih (n / b) (Nat.digitChar (n % b) :: [])]
      simp

lemma toDigitsCore_all_isDigit (fuel n : Nat) (ds : List Char)
    (hds : ∀ c ∈ ds, c.isDigit = true) :
    ∀ c ∈ Nat.toDigitsCore 10 fuel n ds, c.isDigit = true := by
  induction fuel generalizing n ds with
  | zero => simpa [Nat.toDigitsCore] using hds
  | succ fuel ih =>
    simp only [Nat.toDigitsCore]
    have hd : (Nat.digitChar (n % 10)).isDigit = true :=
      digitChar_isDigit (Nat.mod_lt _ (by decide))
    by_cases h : n / 10 = 0
    · rw [if_pos h]
      intro c hc
      rcases List.mem_cons.mp hc with rfl | hc
      · exact hd
      · exact hds c hc
    · rw [if_neg h]
      apply ih
      intro c hc
      rcases List.mem_cons.mp hc with rfl | hc
      · exact hd
      · exact hds c hc

lemma toDigitsCore_ne_nil (fuel n : Nat) (ds : List Char) :
    Nat.toDigitsCore 10 (fuel + 1) n ds ≠ [] := by
  simp only [Nat.toDigitsCore]
  by_cases h : n / 10 = 0
  · rw [if_pos h]; simp
  · rw [if_neg h, toDigitsCore_append]; simp

lemma foldl_accDigit_toDigitsCore (fuel : Nat) :
    ∀ n a : Nat, n < fuel →
      (Nat.toDigitsCore 10 fuel n []).foldl accDigit a =
        a * 10 ^ (Nat.toDigitsCore 10 fuel n []).length + n := by
  induction fuel with
  | zero => intro n a h; omega
  | succ fuel ih =>
    intro n a h
    simp only [Nat.toDigitsCore]
    by_cases h10 : n / 10 = 0
    · have hn : n < 10 := by omega
      rw [if_pos h10]
      simp only [List.foldl_cons, List.foldl_nil, accDigit, List.length_cons,
        List.length_nil, digitVal_digitChar (Nat.mod_lt _ (by decide))]
      rw [Nat.mod_eq_of_lt hn]
      ring
    · rw [if_neg h10, toDigitsCore_append]
      have hlt : n / 10 < fuel := by
        have hself : n / 10 < n := Nat.div_lt_self (by omega) (by decide)
        omega
      rw [List.foldl_append, ih (n / 10) a hlt]
      simp only [List.length_append, List.length_cons, List.length_nil,
        List.foldl_cons, List.foldl_nil, accDigit,
        digitVal_digitChar (Nat.mod_lt _ (by decide))]
      rw [pow_succ, ← mul_assoc]
      generalize a * (10 : Nat) ^ (Nat.toDigitsCore 10 fuel (n / 10) []).length = Q
      omega

/-- JS `Number(String(n)) = n` on natural numbers: decimal printing followed
by decimal parsing is the identity. -/
theorem jsNumber_jsString (n : Nat) : jsNumberOfString (jsStringOfNat n) = n := by
  have hne : Nat.toDigitsCore 10 (n + 1) n [] ≠ [] := toDigitsCore_ne_nil n n []
  have hdig : ∀ c ∈ Nat.toDigitsCore 10 (n + 1) n [], c.isDigit = true :=
    toDigitsCore_all_isDigit (n + 1) n [] (by simp)
  have hcond : (Nat.toDigitsCore 10 (n + 1) n []).all (fun c => c.isDigit) = true ∧
      Nat.toDigitsCore 10 (n + 1) n [] ≠ [] :=
    ⟨List.all_eq_true.mpr hdig, hne⟩
  show (if (Nat.toDigitsCore 10 (n + 1) n []).all (fun c => c.isDigit) = true ∧
        Nat.toDigitsCore 10 (n + 1) n [] ≠ []
      then (Nat.toDigitsCore 10 (n + 1) n []).foldl accDigit 0 else 0) = n
  rw [if_pos hcond, foldl_accDigit_toDigitsCore (n + 1) n 0 (Nat.lt_succ_self n)]
  simp

/-- Decimal printing is injective. -/
theorem jsStringOfNat_injective : Function.Injective jsStringOfNat := by
  intro a b h
  have ha := jsNumber_jsString a
  rw [h, jsNumber_jsString] at ha
  exact ha.symm

/-! ## Generic list helpers -/

lemma getD_mem {α : Type} {l : List α} {i : Nat} (h : i < l.length) (d : α) :
    l.getD i d ∈ l := by
  rw [List.getD_eq_getElem?_getD, List.getElem?_eq_getElem h]
  exact List.getElem_mem h

lemma set_preserving_map {α β : Type} (f : α → β) :
    ∀ (l : List α) (i : Nat) (a d : α), i < l.length → f a = f (l.getD i d) →
      (l.set i a).map f = l.map f := by
  intro l
  induction l with
  | nil => intro i a d h; simp at h
  | cons x xs ih =>
    intro i a d h hfa
    cases i with
    | zero =>
      simp only [List.getD_cons_zero] at hfa
      simp [List.set, hfa]
    | succ i =>
      simp only [List.getD_cons_succ] at hfa
      simp only [List.set, List.map_cons]
      rw [ih i a d (by simpa using h) hfa]

/-- In a list containing exactly one record satisfying `q`, `findIdx?` finds
an index carrying such a record, and after erasing that index no record
satisfying `q` remains. -/
lemma findIdx_erase_of_countP_one {α : Type} [Inhabited α] (q : α → Bool) :
    ∀ l : List α, l.countP q = 1 →
      ∃ i, l.findIdx? q = some i ∧ q (l.getD i default) = true ∧
        (l.eraseIdx i).find? q = none := by
  intro l
  induction l with
  | nil => intro h; simp at h
  | cons a as ih =>
    intro h
    rw [List.countP_cons] at h
    by_cases ha : q a
    · refine ⟨0, by simp [ha], by simpa using ha, ?_⟩
      have hz : as.countP q = 0 := by
        rw [if_pos ha] at h
        omega
      rw [List.countP_eq_zero] at hz
      simp only [List.eraseIdx_cons_zero, List.find?_eq_none]
      intro x hx
      exact hz x hx
    · have h' : as.countP q = 1 := by
        rw [if_neg ha] at h
        omega
      obtain ⟨i, hfind, hq, herase⟩ := ih h'
      refine ⟨i + 1, ?_, by simpa using hq, ?_⟩
      · simp [ha, hfind]
      · simpa [List.eraseIdx_cons_succ, ha] using herase

/-! ## In-memory backend: operation characterizations and invariants -/

namespace InMemoryRepository

/-- On the empty store, `updatePost` never resolves. -/
lemma updatePost_nil (post : UpdatePostModel) (now : Nat) :
    updatePost [] post now = none := rfl

/-- On any non-empty store, the shadowed `findIndex` predicate matches the
head, so `updatePost` rewrites the first record — whatever id was asked for —
and resolves its translation. -/
lemma updatePost_cons (p : MemoryPost) (rest : List MemoryPost)
    (post : UpdatePostModel) (now : Nat) :
    updatePost (p :: rest) post now =
      some (inMemoryPostToPostModel
        { p with post_title := post.title, post_body := post.body,
                 post_description := post.description, post_updated := now },
        { p with post_title := post.title, post_body := post.body,
                 post_description := post.description, post_updated := now } :: rest) := by
  simp [updatePost, jsStringOfString]

/-- The per-record invariant of the in-memory backend: a canonically printed
id and timestamps `created ≤ updated ≤ t`. -/
def MInv (posts : List MemoryPost) (t : Nat) : Prop :=
  ∀ p ∈ posts, (∃ k, p.id = jsStringOfNat k) ∧
    p.post_created ≤ p.post_updated ∧ p.post_updated ≤ t

/-- A resolving `deletePost` erases one index of the stored collection. -/
lemma deletePost_some_state {posts : List MemoryPost} {id : Nat}
    {r : Nat × List MemoryPost} (h : deletePost posts id = some r) :
    r.1 = id ∧ ∃ i, r.2 = posts.eraseIdx i := by
  simp only [deletePost] at h
  cases hidx : posts.findIdx? (fun post => post.id == jsStringOfNat id) with
  | none => rw [hidx] at h; cases h
  | some i => rw [hidx] at h; cases h; exact ⟨rfl, i, rfl⟩

lemma minv_update {posts : List MemoryPost} {post : UpdatePostModel} {t : Nat}
    {r : PostModel × List MemoryPost} (h : updatePost posts post t = some r)
    (hinv : MInv posts t) : MInv r.2 t := by
  cases posts with
  | nil => rw [updatePost_nil] at h; cases h
  | cons q rest =>
    rw [updatePost_cons] at h
    cases h
    intro p hp
    rcases List.mem_cons.mp hp with rfl | hp
    · obtain ⟨hc, h1, h2⟩ := hinv q (List.mem_cons_self q rest)
      exact ⟨hc, Nat.le_trans h1 h2, Nat.le_refl _⟩
    · exact hinv p (List.mem_cons_of_mem q hp)

/-- Every state reachable by the in-memory backend stores only records whose
id is a canonical decimal string and whose timestamps satisfy
`created ≤ updated ≤ t`. -/
lemma reachAt_inv {posts : List MemoryPost} {t : Nat} (h : ReachAt posts t) :
    MInv posts t := by
  induction h with
  | seed ht =>
    intro p hp
    simp only [initialPosts, List.mem_cons, List.not_mem_nil, or_false] at hp
    rcases hp with rfl | rfl
    · exact ⟨⟨1, by decide⟩, Nat.le_refl _, ht⟩
    · exact ⟨⟨2, by decide⟩, Nat.le_refl _, ht⟩
  | tick h hle ih =>
    intro p hp
    obtain ⟨hc, h1, h2⟩ := ih p hp
    exact ⟨hc, h1, Nat.le_trans h2 hle⟩
  | create post h ih =>
    intro p hp
    simp only [createPost, List.mem_append, List.mem_singleton] at hp
    rcases hp with hp | rfl
    · exact ih p hp
    · exact ⟨⟨_, rfl⟩, Nat.le_refl _, Nat.le_refl _⟩
  | update post h heq ih =>
    exact minv_update heq ih
  | delete id h heq ih =>
    obtain ⟨-, i, hi⟩ := deletePost_some_state heq
    rw [hi]
    intro p hp
    exact ih p ((List.eraseIdx_sublist _ i).subset hp)

/-- `updatePost` never changes any stored id: the stored id sequence of the
resulting collection equals that of the original. -/
lemma updatePost_preserves_ids {posts : List MemoryPost}
    {post : UpdatePostModel} {now : Nat} {r : PostModel × List MemoryPost}
    (h : updatePost posts post now = some r) :
    r.2.map MemoryPost.id = posts.map MemoryPost.id := by
  cases posts with
  | nil => rw [updatePost_nil] at h; cases h
  | cons q rest =>
    rw [updatePost_cons] at h
    cases h
    rfl

/-- The duplicate-id state `s2Posts` (seed, create, delete 1) is reachable. -/
lemma reach_s2 : ReachAt s2Posts seedDate := by
  have h0 : ReachAt initialPosts seedDate := ReachAt.seed (Nat.le_refl _)
  have h1 := ReachAt.create pA h0
  have h2 := ReachAt.delete 1 h1
    (show deletePost (createPost initialPosts pA seedDate).2 1
        = some (1, s2Posts) by decide)
  exact h2

/-- The state `dupPosts`, in which two stored records share id `"3"`, is
reachable. -/
lemma reach_dup : ReachAt dupPosts seedDate := by
  have h2 := reach_s2
  have h3 := ReachAt.create pB h2
  have e : (createPost s2Posts pB seedDate).2 = dupPosts := by decide
  rwa [e] at h3

end InMemoryRepository

/-! ## File backend: load/state lemmas and invariants -/

namespace FileRepository

/-- After any operation the cache is populated, and `loadPosts` is then the
identity on the state. -/
lemma loadPosts_loadPosts (s : FileRepoState) :
    loadPosts (loadPosts s).2 = loadPosts s := by
  cases h : s.FilePosts <;> simp [loadPosts, h]

/-- The collection `loadPosts` yields satisfies the state invariant. -/
lemma loadPosts_inv {s : FileRepoState} {t : Nat} (h : FInv s t) :
    (∀ p ∈ (loadPosts s).1, p.added ≤ p.updated ∧ p.updated ≤ t) ∧
      FInv (loadPosts s).2 t := by
  obtain ⟨hfile, hcache⟩ := h
  cases hs : s.FilePosts with
  | some ps =>
    refine ⟨fun p hp => hcache ps hs p (by simpa [loadPosts, hs] using hp), ?_⟩
    simp only [loadPosts, hs]
    exact ⟨hfile, hcache⟩
  | none =>
    simp only [loadPosts, hs]
    refine ⟨fun p hp => hfile p hp, hfile, ?_⟩
    intro ps hps p hp
    cases hps
    exact hfile p hp

lemma finv_create {s : FileRepoState} {post : CreatePostModel} {t : Nat}
    (h : FInv s t) : FInv (createPost s post t).2 t := by
  obtain ⟨hload, -⟩ := loadPosts_inv h
  have hall : ∀ p ∈ (loadPosts s).1 ++
      [{ id := (loadPosts s).1.length + 1, title := post.title,
         desc := post.description, body := post.body,
         author := post.createdBy, added := t, updated := t : FilePost }],
      p.added ≤ p.updated ∧ p.updated ≤ t := by
    intro p hp
    rcases List.mem_append.mp hp with hp | hp
    · exact hload p hp
    · rcases List.mem_singleton.mp hp with rfl
      exact ⟨Nat.le_refl _, Nat.le_refl _⟩
  refine ⟨hall, ?_⟩
  intro ps hps p hp
  cases hps
  exact hall p hp

lemma finv_update {s : FileRepoState} {post : UpdatePostModel} {t : Nat}
    (h : FInv s t) : FInv (updatePost s post t).2 t := by
  obtain ⟨hload, hstate⟩ := loadPosts_inv h
  simp only [updatePost]
  cases hidx : (loadPosts s).1.findIdx? (fun filePost => filePost.id == post.id) with
  | none => simpa [hidx] using hstate
  | some i =>
    simp only [hidx]
    obtain ⟨hlt, -, -⟩ := List.findIdx?_eq_some_iff_getElem.mp hidx
    have hmem : (loadPosts s).1.getD i default ∈ (loadPosts s).1 := getD_mem hlt _
    have hset : ∀ p ∈ (loadPosts s).1.set i
        { (loadPosts s).1.getD i default with
          title := post.title, desc := post.description,
          body := post.body, updated := t },
        p.added ≤ p.updated ∧ p.updated ≤ t := by
      intro p hp
      rcases List.mem_or_eq_of_mem_set hp with hp | rfl
      · exact hload p hp
      · exact ⟨Nat.le_trans (hload _ hmem).1 (hload _ hmem).2, Nat.le_refl _⟩
    refine ⟨hset, ?_⟩
    intro ps hps p hp
    cases hps
    exact hset p hp

lemma finv_delete {s : FileRepoState} {id t : Nat}
    (h : FInv s t) : FInv (deletePost s id).2 t := by
  obtain ⟨hload, hstate⟩ := loadPosts_inv h
  simp only [deletePost]
  cases hidx : (loadPosts s).1.findIdx? (fun filePost => filePost.id == id) with
  | none => simpa [hidx] using hstate
  | some i =>
    simp only [hidx]
    have herase : ∀ p ∈ (loadPosts s).1.eraseIdx i,
        p.added ≤ p.updated ∧ p.updated ≤ t :=
      fun p hp => hload p ((List.eraseIdx_sublist _ i).subset hp)
    refine ⟨herase, ?_⟩
    intro ps hps p hp
    cases hps
    exact herase p hp

/-- `FInv` holds in every reachable state of the file backend. -/
lemma fileReachAt_inv {f : List FilePost} {s : FileRepoState} {t : Nat}
    (h : FileReachAt f s t) : FInv s t := by
  induction h with
  | seed hf => exact ⟨hf, by intro ps hps; cases hps⟩
  | tick h hle ih =>
    obtain ⟨hfile, hcache⟩ := ih
    exact ⟨fun p hp => ⟨(hfile p hp).1, Nat.le_trans (hfile p hp).2 hle⟩,
      fun ps hps p hp => ⟨(hcache ps hps p hp).1,
        Nat.le_trans (hcache ps hps p hp).2 hle⟩⟩
  | getAll h ih => exact (loadPosts_inv ih).2
  | getById id h ih => exact (loadPosts_inv ih).2
  | create post h ih => exact finv_create ih
  | update post h ih => exact finv_update ih
  | delete id h ih => exact finv_delete ih

/-- `updatePost` never changes any stored id (on the not-found path the
collection is untouched; on the found path only non-id fields are rewritten). -/
lemma updatePost_id_list_eq (s : FileRepoState) (post : UpdatePostModel)
    (now : Nat) :
    (loadPosts (updatePost s post now).2).1.map FilePost.id
      = (loadPosts s).1.map FilePost.id := by
  simp only [updatePost]
  cases hidx : (loadPosts s).1.findIdx? (fun filePost => filePost.id == post.id) with
  | none => simp [hidx, loadPosts_loadPosts]
  | some i =>
    simp only [hidx, loadPosts]
    obtain ⟨hlt, -, -⟩ := List.findIdx?_eq_some_iff_getElem.mp hidx
    exact set_preserving_map FilePost.id _ i _ default hlt rfl

/-- Looking up the id assigned by `createPost` in the state it produced finds
exactly the new record, provided that id was not already in use. -/
lemma created_state_lookup (ps : List FilePost) (post : CreatePostModel)
    (now : Nat) (h : ps.length + 1 ∉ ps.map FilePost.id) :
    (getPostById
        ⟨some (ps ++ [⟨ps.length + 1, post.title, post.description, post.body,
            post.createdBy, now, now⟩]),
          ps ++ [⟨ps.length + 1, post.title, post.description, post.body,
            post.createdBy, now, now⟩]⟩
        (ps.length + 1)).1
      = some (filePostToPostModel ⟨ps.length + 1, post.title, post.description,
          post.body, post.createdBy, now, now⟩) := by
  show ((ps ++ [(⟨ps.length + 1, post.title, post.description, post.body,
      post.createdBy, now, now⟩ : FilePost)]).find?
        (fun filePost => filePost.id == ps.length + 1)).map filePostToPostModel
    = some (filePostToPostModel ⟨ps.length + 1, post.title, post.description,
        post.body, post.createdBy, now, now⟩)
  rw [List.find?_append]
  have h1 : ps.find? (fun filePost => filePost.id == ps.length + 1) = none := by
    rw [List.find?_eq_none]
    intro p hp hbeq
    exact h (List.mem_map.mpr ⟨p, hp, by simpa using hbeq⟩)
  rw [h1]
  simp

end FileRepository

namespace InMemoryRepository

/-- Looking up the id assigned by `createPost` in the store it produced finds
exactly the new record, provided its canonical string was not already a
stored id. -/
lemma getPostById_append_fresh (posts : List MemoryPost) (newPost : MemoryPost)
    (k : Nat) (hk : newPost.id = jsStringOfNat k)
    (h : jsStringOfNat k ∉ posts.map MemoryPost.id) :
    getPostById (posts ++ [newPost]) k = some (inMemoryPostToPostModel newPost) := by
  simp only [getPostById, List.find?_append]
  have h1 : posts.find? (fun post => post.id == jsStringOfNat k) = none := by
    rw [List.find?_eq_none]
    intro p hp hbeq
    exact h (List.mem_map.mpr ⟨p, hp, by simpa using hbeq⟩)
  rw [h1]
  simp [hk]

end InMemoryRepository

namespace InMemoryRepository

/-- When `findIndex` locates the id, `deletePost` splices that index out and
resolves the argument id. -/
lemma deletePost_found {posts : List MemoryPost} {id i : Nat}
    (hfind : posts.findIdx? (fun post => post.id == jsStringOfNat id) = some i) :
    deletePost posts id = some (id, posts.eraseIdx i) := by
  simp only [deletePost, hfind]

end InMemoryRepository

namespace FileRepository

/-- When `findIndex` locates the id, `deletePost` splices that index out,
rewrites `db.json`, and returns the spliced record's id. -/
lemma deletePost_found_splice {s : FileRepoState} {id i : Nat}
    (hfind : (loadPosts s).1.findIdx? (fun filePost => filePost.id == id) = some i) :
    deletePost s id
      = (Except.ok ((loadPosts s).1.getD i default).id,
          ⟨some ((loadPosts s).1.eraseIdx i), (loadPosts s).1.eraseIdx i⟩) := by
  obtain ⟨cache, file⟩ := s
  cases cache with
  | none =>
    simp only [loadPosts] at hfind ⊢
    simp only [deletePost, loadPosts, hfind]
  | some ps =>
    simp only [loadPosts] at hfind ⊢
    simp only [deletePost, loadPosts, hfind]

end FileRepository

/-! ## The claims -/

/-- C1 (code bug): the spec requires `updatePost`/`deletePost` on an absent id
to fail with an explicit, catchable NotFound error on every backend, "never
silent non-completion".  The in-memory backend violates this — contradicting
its own doc comments ("throws an error if not found"): `deletePost` of an
absent id leaves the promise pending forever (modelled `none`); `updatePost`
on an empty store does the same; and `updatePost` of an absent id on a
non-empty store resolves successfully (rewriting the first record) instead of
failing.  Only the file backend raises the error. -/
theorem claim1_notfound_eval :
    InMemoryRepository.deletePost InMemoryRepository.initialPosts 3 = none ∧
    InMemoryRepository.updatePost [] ⟨3, "T", "D", "B"⟩
        InMemoryRepository.seedDate = none ∧
    InMemoryRepository.updatePost InMemoryRepository.initialPosts
        ⟨3, "T", "D", "B"⟩ InMemoryRepository.seedDate
      = some (⟨1, "T", "D", "B", "johndoe", InMemoryRepository.seedDate,
            InMemoryRepository.seedDate⟩,
          [⟨"1", "T", "B", "D", InMemoryRepository.seedDate,
              InMemoryRepository.seedDate, "johndoe"⟩,
            InMemoryRepository.rec2]) ∧
    FileRepository.updatePost ⟨none, []⟩ ⟨3, "T", "D", "B"⟩ 0
      = (Except.error "Post not found", ⟨some [], []⟩) ∧
    FileRepository.deletePost ⟨none, []⟩ 3
      = (Except.error "Post not found", ⟨some [], []⟩) := by
  refine ⟨by decide, rfl, by decide, rfl, rfl⟩

/-- C2 (code bug): the spec's round trip requires `updatePost {id: X.id, …}`
on an existing X to return a Post with `id = X.id` and `createdBy =
X.createdBy`.  In the in-memory backend the shadowed `findIndex` predicate
always selects the first record: updating the existing post with id 2 returns
a Post with id 1 and createdBy `"johndoe"` (the first record's author), and
rewrites the first record instead of the targeted one. -/
theorem claim2_update_wrong_record_eval :
    InMemoryRepository.updatePost InMemoryRepository.initialPosts
        ⟨2, "T2", "D2", "B2"⟩ InMemoryRepository.seedDate
      = some (⟨1, "T2", "D2", "B2", "johndoe", InMemoryRepository.seedDate,
            InMemoryRepository.seedDate⟩,
          [⟨"1", "T2", "B2", "D2", InMemoryRepository.seedDate,
              InMemoryRepository.seedDate, "johndoe"⟩,
            InMemoryRepository.rec2]) ∧
    (1 : Nat) ≠ 2 ∧ "johndoe" ≠ "janedoe" := by
  refine ⟨by decide, by decide, by decide⟩

/-- C5: both backends assign the new post the id `current length + 1` — as the
decimal string `String(length + 1)` in the in-memory internal record, numeric
in the file backend.  On the in-memory two-post seed `createPost` returns
id 3; on an empty file seed the first `createPost` returns id 1 and the
backing file afterwards holds exactly one record, with id 1. -/
theorem claim5_id_assignment (posts : List MemoryPost) (s : FileRepoState)
    (P : CreatePostModel) (now : Nat) :
    (InMemoryRepository.createPost posts P now).2
      = posts ++ [⟨jsStringOfNat (posts.length + 1), P.title, P.body,
          P.description, now, now, P.createdBy⟩] ∧
    (InMemoryRepository.createPost InMemoryRepository.initialPosts P now).1.id = 3 ∧
    (FileRepository.createPost s P now).2.dbFile
      = (FileRepository.loadPosts s).1
          ++ [⟨(FileRepository.loadPosts s).1.length + 1, P.title, P.description,
              P.body, P.createdBy, now, now⟩] ∧
    (FileRepository.createPost s P now).1.id
      = (FileRepository.loadPosts s).1.length + 1 ∧
    (FileRepository.createPost ⟨none, []⟩ P now).1.id = 1 ∧
    (FileRepository.createPost ⟨none, []⟩ P now).2.dbFile
      = [⟨1, P.title, P.description, P.body, P.createdBy, now, now⟩] :=
  ⟨rfl, jsNumber_jsString 3, rfl, rfl, rfl, rfl⟩

/-- C6: on both backends, `getPostById` of an id matching no stored record
resolves successfully to the explicit absent sentinel (`undefined`, modelled
`none` in an `Option` — a normal return value, not the error channel used for
NotFound), so callers can distinguish "found nothing" from failure. -/
theorem claim6_absent_is_none :
    (∀ (posts : List MemoryPost) (id : Nat),
      (∀ p ∈ posts, p.id ≠ jsStringOfNat id) →
        InMemoryRepository.getPostById posts id = none) ∧
    (∀ (s : FileRepoState) (id : Nat),
      (∀ p ∈ (FileRepository.loadPosts s).1, p.id ≠ id) →
        (FileRepository.getPostById s id).1 = none) := by
  constructor
  · intro posts id h
    have h1 : posts.find? (fun post => post.id == jsStringOfNat id) = none := by
      rw [List.find?_eq_none]
      intro p hp hbeq
      exact h p hp (by simpa using hbeq)
    show (posts.find? (fun post => post.id == jsStringOfNat id)).map
        InMemoryRepository.inMemoryPostToPostModel = none
    rw [h1]
    rfl
  · intro s id h
    have h1 : (FileRepository.loadPosts s).1.find?
        (fun filePost => filePost.id == id) = none := by
      rw [List.find?_eq_none]
      intro p hp hbeq
      exact h p hp (by simpa using hbeq)
    show ((FileRepository.loadPosts s).1.find?
        (fun filePost => filePost.id == id)).map
          FileRepository.filePostToPostModel = none
    rw [h1]
    rfl

/-- Witness for C6: the absent id 99 on the seeded in-memory store and on an
empty file store. -/
theorem claim6_absent_is_none_witness :
    InMemoryRepository.getPostById InMemoryRepository.initialPosts 99 = none ∧
    (FileRepository.getPostById ⟨none, []⟩ 99).1 = none :=
  ⟨claim6_absent_is_none.1 InMemoryRepository.initialPosts 99 (by decide),
    claim6_absent_is_none.2 ⟨none, []⟩ 99 (by decide)⟩

/-- C9: `getAllPosts` twice with no intervening mutation yields identical
sequences and leaves the stored collection unchanged.  The in-memory read is a
pure function of the store (the promise executor only resolves), so two calls
are literally equal; the file backend's first call may populate the lazy
cache, after which the second call returns the same sequence, leaves the
state fixed, and the backing file is never written. -/
theorem claim9_read_idempotent (posts : List MemoryPost) (s : FileRepoState) :
    InMemoryRepository.getAllPosts posts = InMemoryRepository.getAllPosts posts ∧
    (FileRepository.getAllPosts (FileRepository.getAllPosts s).2).1
      = (FileRepository.getAllPosts s).1 ∧
    (FileRepository.getAllPosts (FileRepository.getAllPosts s).2).2
      = (FileRepository.getAllPosts s).2 ∧
    (FileRepository.getAllPosts s).2.dbFile = s.dbFile := by
  refine ⟨rfl, ?_, ?_, ?_⟩ <;> obtain ⟨cache, file⟩ := s <;> cases cache <;> rfl

/-- C3 counterexample: the claim quantifies over every reachable state, but in
the reachable state `s2Posts` (seed, then create, then delete post 1) the next
`createPost` is assigned id `String(2 + 1) = "3"` although a record with id
`"3"` is already stored; the subsequent `getPostById` on the returned id finds
the older record, which differs from the returned Post. -/
theorem claim3_id_reuse_counterexample :
    InMemoryRepository.ReachAt InMemoryRepository.s2Posts
      InMemoryRepository.seedDate ∧
    InMemoryRepository.createPost InMemoryRepository.s2Posts
        InMemoryRepository.pB InMemoryRepository.seedDate
      = (⟨3, "T2", "D2", "B2", "bob", InMemoryRepository.seedDate,
            InMemoryRepository.seedDate⟩,
          InMemoryRepository.dupPosts) ∧
    InMemoryRepository.getPostById InMemoryRepository.dupPosts 3
      = some ⟨3, "T", "D", "B", "alice", InMemoryRepository.seedDate,
          InMemoryRepository.seedDate⟩ ∧
    (⟨3, "T", "D", "B", "alice", InMemoryRepository.seedDate,
        InMemoryRepository.seedDate⟩ : PostModel)
      ≠ ⟨3, "T2", "D2", "B2", "bob", InMemoryRepository.seedDate,
          InMemoryRepository.seedDate⟩ :=
  ⟨InMemoryRepository.reach_s2, by decide, by decide, by decide⟩

/-- C3 (amended): on both backends, when the id assigned by `createPost`
(`count + 1`) is not already among the stored ids — which the documented
id-reuse defect can violate after deletes — `getPostById` of the returned
Post's id returns exactly that Post. -/
theorem claim3_create_then_get :
    (∀ (posts : List MemoryPost) (P : CreatePostModel) (now : Nat),
      jsStringOfNat (posts.length + 1) ∉ posts.map MemoryPost.id →
        InMemoryRepository.getPostById
            (InMemoryRepository.createPost posts P now).2
            (InMemoryRepository.createPost posts P now).1.id
          = some (InMemoryRepository.createPost posts P now).1) ∧
    (∀ (s : FileRepoState) (P : CreatePostModel) (now : Nat),
      (FileRepository.loadPosts s).1.length + 1
          ∉ (FileRepository.loadPosts s).1.map FilePost.id →
        (FileRepository.getPostById
            (FileRepository.createPost s P now).2
            (FileRepository.createPost s P now).1.id).1
          = some (FileRepository.createPost s P now).1) := by
  constructor
  · intro posts P now h
    have hid : (InMemoryRepository.createPost posts P now).1.id
        = posts.length + 1 := jsNumber_jsString (posts.length + 1)
    rw [hid]
    exact InMemoryRepository.getPostById_append_fresh posts
      ⟨jsStringOfNat (posts.length + 1), P.title, P.body, P.description,
        now, now, P.createdBy⟩
      (posts.length + 1) rfl h
  · intro s P now h
    obtain ⟨cache, file⟩ := s
    cases cache with
    | none => exact FileRepository.created_state_lookup file P now h
    | some ps => exact FileRepository.created_state_lookup ps P now h

/-- Witness for C3: create on the in-memory seed (fresh id 3) and on an empty
file store (fresh id 1), then read the created post back. -/
theorem claim3_create_then_get_witness :
    InMemoryRepository.getPostById
        (InMemoryRepository.createPost InMemoryRepository.initialPosts
          InMemoryRepository.pA InMemoryRepository.seedDate).2
        (InMemoryRepository.createPost InMemoryRepository.initialPosts
          InMemoryRepository.pA InMemoryRepository.seedDate).1.id
      = some (InMemoryRepository.createPost InMemoryRepository.initialPosts
          InMemoryRepository.pA InMemoryRepository.seedDate).1 ∧
    (FileRepository.getPostById
        (FileRepository.createPost ⟨none, []⟩ InMemoryRepository.pA 5).2
        (FileRepository.createPost ⟨none, []⟩ InMemoryRepository.pA 5).1.id).1
      = some (FileRepository.createPost ⟨none, []⟩ InMemoryRepository.pA 5).1 :=
  ⟨claim3_create_then_get.1 InMemoryRepository.initialPosts
      InMemoryRepository.pA InMemoryRepository.seedDate (by decide),
    claim3_create_then_get.2 ⟨none, []⟩ InMemoryRepository.pA 5 (by decide)⟩

/-- C4: on both backends, `createPost` returns a Post whose id is
`count + 1` — previously unused provided that value is not already a stored id
(the "modulo the documented id-reuse defect" proviso) — whose `created` equals
its `updated`, and whose projected fields equal the payload's. -/
theorem claim4_create_fresh_projection :
    (∀ (posts : List MemoryPost) (P : CreatePostModel) (now : Nat),
      posts.length + 1 ∉ posts.map (fun p => jsNumberOfString p.id) →
        (InMemoryRepository.createPost posts P now).1.id = posts.length + 1 ∧
        (InMemoryRepository.createPost posts P now).1.id
          ∉ posts.map (fun p => jsNumberOfString p.id) ∧
        (InMemoryRepository.createPost posts P now).1.created
          = (InMemoryRepository.createPost posts P now).1.updated ∧
        (InMemoryRepository.createPost posts P now).1.title = P.title ∧
        (InMemoryRepository.createPost posts P now).1.description = P.description ∧
        (InMemoryRepository.createPost posts P now).1.body = P.body ∧
        (InMemoryRepository.createPost posts P now).1.createdBy = P.createdBy) ∧
    (∀ (s : FileRepoState) (P : CreatePostModel) (now : Nat),
      (FileRepository.loadPosts s).1.length + 1
          ∉ (FileRepository.loadPosts s).1.map FilePost.id →
        (FileRepository.createPost s P now).1.id
          = (FileRepository.loadPosts s).1.length + 1 ∧
        (FileRepository.createPost s P now).1.id
          ∉ (FileRepository.loadPosts s).1.map FilePost.id ∧
        (FileRepository.createPost s P now).1.created
          = (FileRepository.createPost s P now).1.updated ∧
        (FileRepository.createPost s P now).1.title = P.title ∧
        (FileRepository.createPost s P now).1.description = P.description ∧
        (FileRepository.createPost s P now).1.body = P.body ∧
        (FileRepository.createPost s P now).1.createdBy = P.createdBy) := by
  constructor
  · intro posts P now h
    have hid : (InMemoryRepository.createPost posts P now).1.id
        = posts.length + 1 := jsNumber_jsString (posts.length + 1)
    exact ⟨hid, by rw [hid]; exact h, rfl, rfl, rfl, rfl, rfl⟩
  · intro s P now h
    exact ⟨rfl, h, rfl, rfl, rfl, rfl, rfl⟩

/-- Witness for C4: the in-memory seed (fresh id 3) and the empty file store
(fresh id 1). -/
theorem claim4_create_fresh_projection_witness :
    ((InMemoryRepository.createPost InMemoryRepository.initialPosts
        InMemoryRepository.pA InMemoryRepository.seedDate).1.id = 3 ∧
      (InMemoryRepository.createPost InMemoryRepository.initialPosts
          InMemoryRepository.pA InMemoryRepository.seedDate).1.id
        ∉ InMemoryRepository.initialPosts.map (fun p => jsNumberOfString p.id) ∧
      (InMemoryRepository.createPost InMemoryRepository.initialPosts
          InMemoryRepository.pA InMemoryRepository.seedDate).1.created
        = (InMemoryRepository.createPost InMemoryRepository.initialPosts
            InMemoryRepository.pA InMemoryRepository.seedDate).1.updated ∧
      (InMemoryRepository.createPost InMemoryRepository.initialPosts
          InMemoryRepository.pA InMemoryRepository.seedDate).1.title = "T" ∧
      (InMemoryRepository.createPost InMemoryRepository.initialPosts
          InMemoryRepository.pA InMemoryRepository.seedDate).1.description = "D" ∧
      (InMemoryRepository.createPost InMemoryRepository.initialPosts
          InMemoryRepository.pA InMemoryRepository.seedDate).1.body = "B" ∧
      (InMemoryRepository.createPost InMemoryRepository.initialPosts
          InMemoryRepository.pA InMemoryRepository.seedDate).1.createdBy = "alice") ∧
    ((FileRepository.createPost ⟨none, []⟩ InMemoryRepository.pA 7).1.id = 1 ∧
      (FileRepository.createPost ⟨none, []⟩ InMemoryRepository.pA 7).1.id
        ∉ ([] : List FilePost).map FilePost.id ∧
      (FileRepository.createPost ⟨none, []⟩ InMemoryRepository.pA 7).1.created
        = (FileRepository.createPost ⟨none, []⟩ InMemoryRepository.pA 7).1.updated ∧
      (FileRepository.createPost ⟨none, []⟩ InMemoryRepository.pA 7).1.title = "T" ∧
      (FileRepository.createPost ⟨none, []⟩ InMemoryRepository.pA 7).1.description = "D" ∧
      (FileRepository.createPost ⟨none, []⟩ InMemoryRepository.pA 7).1.body = "B" ∧
      (FileRepository.createPost ⟨none, []⟩ InMemoryRepository.pA 7).1.createdBy = "alice") :=
  ⟨claim4_create_fresh_projection.1 InMemoryRepository.initialPosts
      InMemoryRepository.pA InMemoryRepository.seedDate (by decide),
    claim4_create_fresh_projection.2 ⟨none, []⟩ InMemoryRepository.pA 7 (by decide)⟩

/-- C7 counterexample: in the reachable state `dupPosts` two stored records
share id `"3"` (the documented id-reuse defect).  Deleting the stored post
`rec3` by its id does resolve the id, but the subsequent `getPostById` still
finds the other record with the same id instead of resolving to absent. -/
theorem claim7_id_reuse_counterexample :
    InMemoryRepository.ReachAt InMemoryRepository.dupPosts
      InMemoryRepository.seedDate ∧
    InMemoryRepository.rec3 ∈ InMemoryRepository.dupPosts ∧
    (InMemoryRepository.inMemoryPostToPostModel InMemoryRepository.rec3).id = 3 ∧
    InMemoryRepository.deletePost InMemoryRepository.dupPosts 3
      = some (3, [InMemoryRepository.rec2, InMemoryRepository.rec3b]) ∧
    InMemoryRepository.getPostById
        [InMemoryRepository.rec2, InMemoryRepository.rec3b] 3
      = some ⟨3, "T2", "D2", "B2", "bob", InMemoryRepository.seedDate,
          InMemoryRepository.seedDate⟩ :=
  ⟨InMemoryRepository.reach_dup, by decide, by decide, by decide, by decide⟩

/-- C7 (amended): on both backends, deleting a stored post X whose id is
shared by no other stored record — which the documented id-reuse defect can
violate — resolves to X's id, and a subsequent `getPostById` of that id
resolves to absent.  (For the in-memory backend the state is additionally
required to be reachable, which guarantees stored ids are canonical decimal
strings.) -/
theorem claim7_delete_then_absent :
    (∀ (posts : List MemoryPost) (t : Nat), InMemoryRepository.ReachAt posts t →
      ∀ x ∈ posts, posts.countP (fun p => p.id == x.id) = 1 →
        ∃ posts' : List MemoryPost,
          InMemoryRepository.deletePost posts
              (InMemoryRepository.inMemoryPostToPostModel x).id
            = some ((InMemoryRepository.inMemoryPostToPostModel x).id, posts') ∧
          InMemoryRepository.getPostById posts'
              (InMemoryRepository.inMemoryPostToPostModel x).id = none) ∧
    (∀ (s : FileRepoState), ∀ x ∈ (FileRepository.loadPosts s).1,
      (FileRepository.loadPosts s).1.countP (fun p => p.id == x.id) = 1 →
        ∃ s' : FileRepoState,
          FileRepository.deletePost s x.id = (Except.ok x.id, s') ∧
          (FileRepository.getPostById s' x.id).1 = none) := by
  constructor
  · intro posts t hreach x hx hcount
    obtain ⟨⟨k, hk⟩, -, -⟩ := InMemoryRepository.reachAt_inv hreach x hx
    have hcanon : jsStringOfNat ((InMemoryRepository.inMemoryPostToPostModel x).id)
        = x.id := by
      show jsStringOfNat (jsNumberOfString x.id) = x.id
      rw [hk, jsNumber_jsString]
    obtain ⟨i, hfind', hqi, hnone⟩ :=
      findIdx_erase_of_countP_one (fun p => p.id == x.id) posts hcount
    have hfind : posts.findIdx? (fun post => post.id ==
        jsStringOfNat (InMemoryRepository.inMemoryPostToPostModel x).id) = some i := by
      rw [hcanon]
      exact hfind'
    refine ⟨posts.eraseIdx i, InMemoryRepository.deletePost_found hfind, ?_⟩
    show ((posts.eraseIdx i).find? (fun post => post.id ==
        jsStringOfNat (InMemoryRepository.inMemoryPostToPostModel x).id)).map
          InMemoryRepository.inMemoryPostToPostModel = none
    rw [hcanon, hnone]
    rfl
  · intro s x hx hcount
    obtain ⟨i, hfind, hqi, hnone⟩ :=
      findIdx_erase_of_countP_one (fun p => p.id == x.id)
        (FileRepository.loadPosts s).1 hcount
    have hid : ((FileRepository.loadPosts s).1.getD i default).id = x.id := by
      simpa using hqi
    refine ⟨⟨some ((FileRepository.loadPosts s).1.eraseIdx i),
        (FileRepository.loadPosts s).1.eraseIdx i⟩, ?_, ?_⟩
    · rw [FileRepository.deletePost_found_splice hfind, hid]
    · show (((FileRepository.loadPosts s).1.eraseIdx i).find?
          (fun filePost => filePost.id == x.id)).map
            FileRepository.filePostToPostModel = none
      rw [hnone]
      rfl

/-- Witness for C7: delete the second seed post (unique id 2) from the
in-memory store, and the unique post of a one-record file store. -/
theorem claim7_delete_then_absent_witness :
    (∃ posts' : List MemoryPost,
      InMemoryRepository.deletePost InMemoryRepository.initialPosts
          (InMemoryRepository.inMemoryPostToPostModel InMemoryRepository.rec2).id
        = some ((InMemoryRepository.inMemoryPostToPostModel
            InMemoryRepository.rec2).id, posts') ∧
      InMemoryRepository.getPostById posts'
          (InMemoryRepository.inMemoryPostToPostModel InMemoryRepository.rec2).id
        = none) ∧
    (∃ s' : FileRepoState,
      FileRepository.deletePost
          ⟨some [⟨1, "T", "D", "B", "alice", 0, 0⟩],
            [⟨1, "T", "D", "B", "alice", 0, 0⟩]⟩ 1
        = (Except.ok 1, s') ∧
      (FileRepository.getPostById s' 1).1 = none) :=
  ⟨claim7_delete_then_absent.1 InMemoryRepository.initialPosts
      InMemoryRepository.seedDate
      (InMemoryRepository.ReachAt.seed (Nat.le_refl _))
      InMemoryRepository.rec2 (by decide) (by decide),
    claim7_delete_then_absent.2
      ⟨some [⟨1, "T", "D", "B", "alice", 0, 0⟩],
        [⟨1, "T", "D", "B", "alice", 0, 0⟩]⟩
      ⟨1, "T", "D", "B", "alice", 0, 0⟩ (by decide) (by decide)⟩

/-- C8: in every reachable state of either backend every stored record
satisfies `created ≤ updated` (for operation times that never run backwards),
and no operation ever changes a stored id: `updatePost` leaves the stored id
sequence unchanged on both backends, and `createPost` only appends the newly
assigned id after the untouched existing ids. -/
theorem claim8_invariants :
    (∀ (posts : List MemoryPost) (t : Nat), InMemoryRepository.ReachAt posts t →
      ∀ p ∈ posts, p.post_created ≤ p.post_updated) ∧
    (∀ (posts : List MemoryPost) (post : UpdatePostModel) (now : Nat)
        (r : PostModel × List MemoryPost),
      InMemoryRepository.updatePost posts post now = some r →
        r.2.map MemoryPost.id = posts.map MemoryPost.id) ∧
    (∀ (posts : List MemoryPost) (P : CreatePostModel) (now : Nat),
      (InMemoryRepository.createPost posts P now).2.map MemoryPost.id
        = posts.map MemoryPost.id ++ [jsStringOfNat (posts.length + 1)]) ∧
    (∀ (f : List FilePost) (s : FileRepoState) (t : Nat),
      FileRepository.FileReachAt f s t →
        (∀ p ∈ s.dbFile, p.added ≤ p.updated) ∧
        (∀ ps, s.FilePosts = some ps → ∀ p ∈ ps, p.added ≤ p.updated)) ∧
    (∀ (s : FileRepoState) (post : UpdatePostModel) (now : Nat),
      (FileRepository.loadPosts
          (FileRepository.updatePost s post now).2).1.map FilePost.id
        = (FileRepository.loadPosts s).1.map FilePost.id) := by
  refine ⟨?_, ?_, ?_, ?_, ?_⟩
  · intro posts t h p hp
    exact ((InMemoryRepository.reachAt_inv h) p hp).2.1
  · intro posts post now r h
    exact InMemoryRepository.updatePost_preserves_ids h
  · intro posts P now
    simp [InMemoryRepository.createPost]
  · intro f s t h
    exact ⟨fun p hp => ((FileRepository.fileReachAt_inv h).1 p hp).1,
      fun ps hps p hp => ((FileRepository.fileReachAt_inv h).2 ps hps p hp).1⟩
  · intro s post now
    exact FileRepository.updatePost_id_list_eq s post now

/-- Witness for C8: the seeded in-memory state, a concrete one-record update,
and the empty-file backend's initial state. -/
theorem claim8_invariants_witness :
    InMemoryRepository.rec2.post_created ≤ InMemoryRepository.rec2.post_updated ∧
    [(⟨"2", "T", "B", "D", InMemoryRepository.seedDate,
        InMemoryRepository.seedDate, "janedoe"⟩ : MemoryPost)].map MemoryPost.id
      = [InMemoryRepository.rec2].map MemoryPost.id ∧
    ((∀ p ∈ (⟨none, []⟩ : FileRepoState).dbFile, p.added ≤ p.updated) ∧
      (∀ ps, (⟨none, []⟩ : FileRepoState).FilePosts = some ps →
        ∀ p ∈ ps, p.added ≤ p.updated)) :=
  ⟨claim8_invariants.1 InMemoryRepository.initialPosts InMemoryRepository.seedDate
      (InMemoryRepository.ReachAt.seed (Nat.le_refl _))
      InMemoryRepository.rec2 (by decide),
    claim8_invariants.2.1 [InMemoryRepository.rec2] ⟨2, "T", "D", "B"⟩
      InMemoryRepository.seedDate
      (⟨2, "T", "D", "B", "janedoe", InMemoryRepository.seedDate,
          InMemoryRepository.seedDate⟩,
        [⟨"2", "T", "B", "D", InMemoryRepository.seedDate,
            InMemoryRepository.seedDate, "janedoe"⟩])
      (by decide),
    claim8_invariants.2.2.2.1 [] ⟨none, []⟩ 0
      (FileRepository.FileReachAt.seed (by simp))⟩

/-- C10: in the in-memory backend, because the `findIndex` arrow-function
parameter `post` shadows the `updatePost` argument, the predicate compares
each record's id with itself; on any non-empty store `updatePost` therefore
resolves successfully for every payload `u` — whether or not any stored id
matches `u.id` — rewriting the title/description/body of the first record and
returning a Post that carries the first record's id (not `u.id`). -/
theorem claim10_update_first_record (p : MemoryPost) (rest : List MemoryPost)
    (u : UpdatePostModel) (now : Nat) :
    InMemoryRepository.updatePost (p :: rest) u now
      = some (InMemoryRepository.inMemoryPostToPostModel
            { p with post_title := u.title, post_body := u.body,
                     post_description := u.description, post_updated := now },
          { p with post_title := u.title, post_body := u.body,
                   post_description := u.description, post_updated := now } :: rest) ∧
    (InMemoryRepository.inMemoryPostToPostModel
        { p with post_title := u.title, post_body := u.body,
                 post_description := u.description, post_updated := now }).id
      = jsNumberOfString p.id :=
  ⟨InMemoryRepository.updatePost_cons p rest u now, rfl⟩

end RepoSpec
